import Mathlib

/-
Verification of the scheduling-and-routing core of the `smokey` delivery
planner (`bionluk/utils.py`).

The embedding models:
  * `create_weekly_schedule_with_dynamic_trucks` together with its inner
    `add_to_schedule` closure (the Weekly Assignment Scheduler),
  * `optimize_routes_for_a_day` (the Daily Route Sequencer),
  * `haversine_distance` (the distance function),
  * `transform_routes_to_coordinates` and `routes_to_dataframe`
    (the Coordinate Projector and the export collaborator).

Modelling conventions:
  * Python's shared random source is replaced by an explicit oracle of
    natural numbers; `random.choice(list(s))` becomes selection of the
    oracle value modulo the candidate-list length, and
    `random.randint(0, n - 1)` becomes the oracle value modulo `n`
    (failing when `n - 1 < 0`, exactly as `randint` does).
  * `ValueError` exceptions surface as `Except SchedError`; subscript
    failures of the coordinate table surface as `Option`.
  * Coordinates are rationals and distances live in `ℝ`; the Euclidean
    matrix entries of `scipy.cdist` are `Real.sqrt` of the rational
    squared distance.
  * The weekly schedule `{day: defaultdict(list) for day in range(5)}` is a
    positional list of five truck maps; a truck map is an association list
    in key-insertion order, matching `defaultdict` iteration order.
-/

/-- The two `ValueError`s the scheduler can raise: `infeasible` models
`raise ValueError("Cannot schedule more visits than available days.")` and
`emptyRange` models the `ValueError` that `random.randint(0, n - 1)` raises
when `n - 1 < 0`. -/
inductive SchedError where
  | infeasible
  | emptyRange
deriving DecidableEq

/-- One row of the outlet table: `OUTLET_ID`, `LATITUDE`, `LONGITUDE`,
`FREQUENCY`. -/
structure Retailer where
  id : Int
  lat : ℚ
  lon : ℚ
  freq : Nat
deriving DecidableEq

/-- The module constant `DEPOT_COORDINATES` of `utils.py`. -/
def DEPOT_COORDINATES : ℚ × ℚ := (41.08919085025256, 29.04999926199514)

instance exceptDecEq {ε α : Type} [DecidableEq ε] [DecidableEq α] :
    DecidableEq (Except ε α) := fun x y =>
  match x, y with
  | .ok a, .ok b =>
    if h : a = b then .isTrue (by rw [h]) else
      .isFalse (fun hc => h (by cases hc; rfl))
  | .error a, .error b =>
    if h : a = b then .isTrue (by rw [h]) else
      .isFalse (fun hc => h (by cases hc; rfl))
  | .ok _, .error _ => .isFalse (fun hc => by cases hc)
  | .error _, .ok _ => .isFalse (fun hc => by cases hc)

/-- One day's `defaultdict(list)` of truck index to assigned outlet ids,
kept as an association list in key-insertion order. -/
abbrev TruckMap := List (Nat × List Int)

/-- `weekly_schedule`: the five days' truck maps, position `d` being day `d`. -/
abbrev Sched := List TruckMap

/-- `{day: defaultdict(list) for day in range(5)}`. -/
def emptySched : Sched := List.replicate 5 []

/-- `weekly_schedule[day][truck_id].append(retailer_id)` restricted to one
day's map: append to the list of an existing key, or create the key at the
end (the `defaultdict` behaviour). -/
def appendTruck : TruckMap → Nat → Int → TruckMap
  | [], t, id => [(t, [id])]
  | (t', l) :: rest, t, id =>
    if t' = t then (t', l ++ [id]) :: rest else (t', l) :: appendTruck rest t id

/-- `weekly_schedule[day][truck_id].append(retailer_id)`. -/
def schedAppend (s : Sched) (day truck : Nat) (id : Int) : Sched :=
  s.set day (appendTruck (s.getD day []) truck id)

/-- `random.choice(list(available_days))` driven by one oracle value `c`:
the element at position `c % length`. -/
def randChoice (c : Nat) (l : List Nat) : Nat := l.getD (c % l.length) 0

/-- The inner closure `add_to_schedule(retailer_id, frequency, day_trucks)` of
`create_weekly_schedule_with_dynamic_trucks`.  Arguments after the oracle and
outlet id are: the oracle step counter, the remaining `frequency`, the
mutable `available_days` (a list standing for the Python set) and the
schedule built so far.  Per iteration it checks emptiness, draws a day,
draws a truck index by `random.randint(0, day_trucks[day] - 1)` (failing
when `day_trucks[day] - 1 < 0`), appends the outlet id, decrements the
frequency and discards `day - 1` and `day + 1` from the candidate days. -/
def add_to_schedule (trucks : Nat → Int) (oracle : Nat → Nat × Nat) (id : Int) :
    Nat → Nat → List Nat → Sched → Except SchedError Sched
  | _, 0, _, sched => .ok sched
  | step, f + 1, avail, sched =>
    if avail = [] then .error .infeasible
    else
      let day := randChoice (oracle step).1 avail
      if trucks day ≤ 0 then .error .emptyRange
      else
        add_to_schedule trucks oracle id (step + 1) f
          (avail.filter fun d => decide (d + 1 ≠ day ∧ d ≠ day + 1))
          (schedAppend sched day ((oracle step).2 % (trucks day).toNat) id)

/-- `data.sort_values(by='FREQUENCY', ascending=False)`. -/
def sorted_retailers (data : List Retailer) : List Retailer :=
  data.insertionSort fun a b => b.freq ≤ a.freq

/-- The body of the `for _, row in sorted_retailers.iterrows()` loop:
`add_to_schedule(row['OUTLET_ID'], row['FREQUENCY'], num_trucks_per_day)`,
with the row index selecting that outlet's slice of the oracle. -/
def scheduleStep (trucks : Nat → Int) (oracle : Nat → Nat → Nat × Nat)
    (sched : Sched) (p : Nat × Retailer) : Except SchedError Sched :=
  add_to_schedule trucks (oracle p.1) p.2.id 0 p.2.freq [0, 1, 2, 3, 4] sched

/-- `create_weekly_schedule_with_dynamic_trucks(data, num_trucks_per_day)`.
`num_trucks_per_day` is read only at day indices `0..4`, so it is passed as
a function. -/
def create_weekly_schedule_with_dynamic_trucks (data : List Retailer)
    (num_trucks_per_day : Nat → Int) (oracle : Nat → Nat → Nat × Nat) :
    Except SchedError Sched :=
  (sorted_retailers data).enum.foldlM (scheduleStep num_trucks_per_day oracle) emptySched

/-- `math.radians`. -/
noncomputable def radians (x : ℝ) : ℝ := x * Real.pi / 180

/-- `math.atan2` on real numbers (standard library semantics, including
`atan2 0 0 = 0`). -/
noncomputable def atan2 (y x : ℝ) : ℝ :=
  if 0 < x then Real.arctan (y / x)
  else if x < 0 then
    if 0 ≤ y then Real.arctan (y / x) + Real.pi else Real.arctan (y / x) - Real.pi
  else if 0 < y then Real.pi / 2
  else if y < 0 then -(Real.pi / 2)
  else 0

/-- `haversine_distance(coord1, coord2)` from `utils.py`, with
`R = 6371`, half-angle sine terms and the `atan2`-based angular distance. -/
noncomputable def haversine_distance (coord1 coord2 : ℝ × ℝ) : ℝ :=
  let R : ℝ := 6371
  let phi1 := radians coord1.1
  let phi2 := radians coord2.1
  let delta_phi := radians (coord2.1 - coord1.1)
  let delta_lambda := radians (coord2.2 - coord1.2)
  let a := Real.sin (delta_phi / 2) ^ 2 +
    Real.cos phi1 * Real.cos phi2 * Real.sin (delta_lambda / 2) ^ 2
  let c := 2 * atan2 (Real.sqrt a) (Real.sqrt (1 - a))
  R * c

/-- Squared planar distance on raw coordinate values. -/
def sqDist (p q : ℚ × ℚ) : ℚ := (p.1 - q.1) ^ 2 + (p.2 - q.2) ^ 2

/-- One entry of `cdist(route_coords, route_coords, metric='euclidean')`:
straight-line Euclidean distance on the raw latitude/longitude values. -/
noncomputable def euclidean (p q : ℚ × ℚ) : ℝ := Real.sqrt ((sqDist p q : ℚ) : ℝ)

/-- Python's `min(m :: xs, key=f)`: the first element attaining the minimal
key, seeded with `m`. -/
def minBy {α : Type} [LinearOrder α] (f : Nat → α) : Nat → List Nat → Nat
  | m, [] => m
  | m, x :: xs => if f x < f m then minBy f x xs else minBy f m xs

/-- The `while unvisited:` nearest-neighbour loop: from `cur`, repeatedly
pick the unvisited index with minimal distance, emit it, remove it, move
there.  The fuel argument counts the remaining iterations; the loop removes
exactly one index per iteration, so fuel `l.length` runs it to completion. -/
def nnGo {α : Type} [LinearOrder α] (d : Nat → Nat → α) : Nat → Nat → List Nat → List Nat
  | 0, _, _ => []
  | _ + 1, _, [] => []
  | n + 1, cur, x :: xs =>
    let nxt := minBy (d cur) x xs
    nxt :: nnGo d n nxt ((x :: xs).erase nxt)

/-- The nearest-neighbour visiting order of the unvisited index set `l`,
starting from index `cur`. -/
def nnAux {α : Type} [LinearOrder α] (d : Nat → Nat → α) (cur : Nat) (l : List Nat) :
    List Nat :=
  nnGo d l.length cur l

/-- The per-day coordinate table: `data` indexed by outlet id and restricted
to latitude/longitude, followed by `coordinates.loc[-1] = depot_coordinates`.
Index `-1` yields the depot (overriding any outlet row keyed `-1`), any other
index is looked up in the outlet table, and a missing index is a lookup
failure (`KeyError`). -/
def coordTable (data : List Retailer) (depot : ℚ × ℚ) : Int → Option (ℚ × ℚ) :=
  fun i =>
    if i = -1 then some depot
    else (data.find? fun r => r.id = i).map fun r => (r.lat, r.lon)

/-- The body of the `for truck_id, retailers in day_schedule.items()` loop for
a non-empty `retailers` list: build `route_points = [-1] + retailers + [-1]`,
resolve them against the coordinate table, take the Euclidean distance
matrix, and run the nearest-neighbour loop from index 0 over the interior
indices `1 .. len(route_points) - 2`, bracketing the result with the depot
sentinel. -/
noncomputable def optimize_route_for_truck (tbl : Int → Option (ℚ × ℚ))
    (retailers : List Int) : Option (List Int) :=
  let route_points : List Int := -1 :: (retailers ++ [-1])
  (route_points.mapM tbl).map fun route_coords =>
    let distances : Nat → Nat → ℝ := fun i j =>
      euclidean (route_coords.getD i (0, 0)) (route_coords.getD j (0, 0))
    let order := nnAux distances 0 (List.range' 1 retailers.length)
    (-1) :: (order.map (fun i => route_points.getD i 0) ++ [-1])

/-- `optimize_routes_for_a_day(day_schedule, data, depot_coordinates)`:
iterate the day's truck map in order, skip trucks with empty assignment
lists (`if not retailers: continue`), and collect each remaining truck's
nearest-neighbour route under its truck id. -/
noncomputable def optimize_routes_for_a_day (data : List Retailer) (depot : ℚ × ℚ) :
    List (Nat × List Int) → Option (List (Nat × List Int))
  | [] => some []
  | (truck, retailers) :: rest =>
    if retailers = [] then optimize_routes_for_a_day data depot rest
    else do
      let route ← optimize_route_for_truck (coordTable data depot) retailers
      let out ← optimize_routes_for_a_day data depot rest
      pure ((truck, route) :: out)

/-- Computable twin of `optimize_route_for_truck` that compares squared
distances instead of their square roots; proved equal to it below. -/
def optimize_route_for_truck_sq (tbl : Int → Option (ℚ × ℚ))
    (retailers : List Int) : Option (List Int) :=
  let route_points : List Int := -1 :: (retailers ++ [-1])
  (route_points.mapM tbl).map fun route_coords =>
    let distances : Nat → Nat → ℚ := fun i j =>
      sqDist (route_coords.getD i (0, 0)) (route_coords.getD j (0, 0))
    let order := nnAux distances 0 (List.range' 1 retailers.length)
    (-1) :: (order.map (fun i => route_points.getD i 0) ++ [-1])

/-- Computable twin of `optimize_routes_for_a_day`; proved equal to it below. -/
def optimize_routes_for_a_day_sq (data : List Retailer) (depot : ℚ × ℚ) :
    List (Nat × List Int) → Option (List (Nat × List Int))
  | [] => some []
  | (truck, retailers) :: rest =>
    if retailers = [] then optimize_routes_for_a_day_sq data depot rest
    else do
      let route ← optimize_route_for_truck_sq (coordTable data depot) retailers
      let out ← optimize_routes_for_a_day_sq data depot rest
      pure ((truck, route) :: out)

/-- The lookup of `transform_routes_to_coordinates`: the dictionary
`coordinates_dict[retailer_id]` guarded by `if retailer_id != -1`, the depot
branch substituting the module constant `DEPOT_COORDINATES`. -/
def resolveCoord (data : List Retailer) (id : Int) : Option (ℚ × ℚ) :=
  if id ≠ -1 then (data.find? fun r => r.id = id).map fun r => (r.lat, r.lon)
  else some DEPOT_COORDINATES

/-- `transform_routes_to_coordinates(optimized_routes, data)`: per day, map
each truck's route (in dictionary iteration order, dropping the truck ids)
to its coordinate sequence. -/
def transform_routes_to_coordinates
    (optimized_routes : List (Nat × List (Nat × List Int))) (data : List Retailer) :
    Option (List (Nat × List (List (ℚ × ℚ)))) :=
  optimized_routes.mapM fun p =>
    ((p.2.mapM fun tr : Nat × List Int => tr.2.mapM (resolveCoord data)).map
      fun rs => (p.1, rs))

/-- One row of the exported flat table. -/
structure Row where
  day : Nat
  truckID : Nat
  step : Nat
  lat : ℚ
  lon : ℚ
deriving DecidableEq

/-- `routes_to_dataframe(transformed_routes)`: enumerate days, truck routes
and steps, exporting `day + 1`, `truck_id + 1`, `step + 1` with the
coordinates. -/
def routes_to_dataframe (transformed : List (Nat × List (List (ℚ × ℚ)))) : List Row :=
  transformed.flatMap fun p =>
    p.2.enum.flatMap fun tr =>
      tr.2.enum.map fun sc =>
        ⟨p.1 + 1, tr.1 + 1, sc.1 + 1, sc.2.1, sc.2.2⟩

/-- Restatement of the export contract in index form: the row for day entry
`(day, routes)`, route position `i` and step `s` carries `day + 1`, `i + 1`
and `s + 1`.  Used to state the amended form of the export claim. -/
def exportRowsSpec (transformed : List (Nat × List (List (ℚ × ℚ)))) : List Row :=
  transformed.flatMap fun p =>
    (List.range p.2.length).flatMap fun i =>
      (List.range (p.2.getD i []).length).map fun s =>
        ⟨p.1 + 1, i + 1, s + 1, ((p.2.getD i []).getD s (0, 0)).1,
          ((p.2.getD i []).getD s (0, 0)).2⟩

/-- Occurrences of `y` in one truck map. -/
def countTM (m : TruckMap) (y : Int) : Nat := (m.map fun q => q.2.count y).sum

/-- Total occurrences of `y` across the whole weekly schedule. -/
def totalCount (s : Sched) (y : Int) : Nat := (s.map fun m => countTM m y).sum

/-- `y` is somewhere in one truck map's lists. -/
def inTM (m : TruckMap) (y : Int) : Prop := ∃ p ∈ m, y ∈ p.2

/-- `y` is assigned somewhere on day `d` of schedule `s`. -/
def onDay (s : Sched) (d : Nat) (y : Int) : Prop := inTM (s.getD d []) y

/-- Total frequency contributed for id `y` by a list of retailers. -/
def contrib (rs : List Retailer) (y : Int) : Nat :=
  (rs.map fun r => if y = r.id then r.freq else 0).sum

instance (m : TruckMap) (y : Int) : Decidable (inTM m y) := by
  unfold inTM; infer_instance

instance (s : Sched) (d : Nat) (y : Int) : Decidable (onDay s d y) := by
  unfold onDay; infer_instance

theorem randChoice_mem (c : Nat) (l : List Nat) (h : l ≠ []) : randChoice c l ∈ l := by
  have hlen : 0 < l.length := List.length_pos.2 h
  have hlt : c % l.length < l.length := Nat.mod_lt _ hlen
  rw [randChoice, List.getD_eq_getElem _ _ hlt]
  exact List.getElem_mem hlt

theorem filter_keeps_day (avail : List Nat) (day : Nat) (h : day ∈ avail) :
    day ∈ avail.filter fun d => decide (d + 1 ≠ day ∧ d ≠ day + 1) := by
  rw [List.mem_filter]
  refine ⟨h, ?_⟩
  simp only [decide_eq_true_eq]
  omega

theorem add_to_schedule_ne_infeasible (trucks : Nat → Int) (oracle : Nat → Nat × Nat)
    (id : Int) :
    ∀ (f step : Nat) (avail : List Nat) (sched : Sched), avail ≠ [] →
      add_to_schedule trucks oracle id step f avail sched ≠ .error .infeasible := by
  intro f
  induction f with
  | zero => intro step avail sched _h; simp [add_to_schedule]
  | succ f ih =>
    intro step avail sched h
    simp only [add_to_schedule, if_neg h]
    split
    · simp
    · exact ih _ _ _ (List.ne_nil_of_mem (filter_keeps_day _ _ (randChoice_mem _ _ h)))

theorem fold_ne_infeasible (trucks : Nat → Int) (oracle : Nat → Nat → Nat × Nat) :
    ∀ (l : List (Nat × Retailer)) (sched : Sched),
      l.foldlM (scheduleStep trucks oracle) sched ≠ .error .infeasible := by
  intro l
  induction l with
  | nil => intro sched; simp [List.foldlM, pure, Except.pure]
  | cons p l ih =>
    intro sched
    rw [List.foldlM_cons]
    cases h : scheduleStep trucks oracle sched p with
    | ok s1 =>
      simp only [h, bind, Except.bind]
      exact ih s1
    | error e =>
      cases e with
      | infeasible =>
        exact absurd h (add_to_schedule_ne_infeasible trucks (oracle p.1) p.2.id _ _ _ _
          (by simp))
      | emptyRange => simp [h, bind, Except.bind]

theorem add_to_schedule_length (trucks : Nat → Int) (oracle : Nat → Nat × Nat) (id : Int) :
    ∀ (f step : Nat) (avail : List Nat) (sched : Sched) (s : Sched),
      add_to_schedule trucks oracle id step f avail sched = .ok s →
      s.length = sched.length := by
  intro f
  induction f with
  | zero =>
    intro step avail sched s h
    simp only [add_to_schedule] at h
    injection h with h
    rw [h]
  | succ f ih =>
    intro step avail sched s h
    simp only [add_to_schedule] at h
    by_cases he : avail = []
    · rw [if_pos he] at h; cases h
    · rw [if_neg he] at h
      by_cases ht : trucks (randChoice (oracle step).1 avail) ≤ 0
      · rw [if_pos ht] at h; cases h
      · rw [if_neg ht] at h
        rw [ih _ _ _ _ h, schedAppend, List.length_set]

theorem count_single (id y : Int) : List.count y [id] = if y = id then 1 else 0 := by
  by_cases hy : y = id
  · subst hy; simp
  · rw [if_neg hy]
    simp only [List.count_cons, List.count_nil, Nat.zero_add]
    rw [if_neg]
    simp only [beq_iff_eq]
    exact fun h => hy h.symm

theorem countTM_appendTruck (m : TruckMap) (t : Nat) (id y : Int) :
    countTM (appendTruck m t id) y = countTM m y + if y = id then 1 else 0 := by
  have hc := count_single id y
  induction m with
  | nil =>
    simp only [appendTruck, countTM, List.map_cons, List.map_nil, List.sum_cons,
      List.sum_nil]
    omega
  | cons q rest ih =>
    obtain ⟨t', l⟩ := q
    by_cases h : t' = t
    · simp only [appendTruck, if_pos h, countTM, List.map_cons, List.sum_cons,
        List.count_append]
      omega
    · simp only [appendTruck, if_neg h, countTM, List.map_cons, List.sum_cons] at ih ⊢
      omega

theorem sum_map_set (f : TruckMap → Nat) :
    ∀ (s : Sched) (i : Nat) (a : TruckMap), i < s.length →
      ((s.set i a).map f).sum + f (s.getD i []) = (s.map f).sum + f a := by
  intro s
  induction s with
  | nil => intro i a h; simp at h
  | cons x xs ih =>
    intro i a h
    cases i with
    | zero =>
      simp only [List.set, List.map_cons, List.sum_cons, List.getD_cons_zero]
      omega
    | succ i =>
      simp only [List.set, List.map_cons, List.sum_cons, List.getD_cons_succ]
      have := ih i a (by simpa using h)
      omega

theorem totalCount_schedAppend (s : Sched) (day truck : Nat) (id y : Int)
    (h : day < s.length) :
    totalCount (schedAppend s day truck id) y = totalCount s y + if y = id then 1 else 0 := by
  have h1 := sum_map_set (fun m => countTM m y) s day (appendTruck (s.getD day []) truck id) h
  simp only [countTM_appendTruck] at h1
  unfold totalCount schedAppend
  omega

theorem add_to_schedule_count (trucks : Nat → Int) (oracle : Nat → Nat × Nat) (id : Int) :
    ∀ (f step : Nat) (avail : List Nat) (sched : Sched) (s : Sched),
      (∀ d ∈ avail, d < 5) → sched.length = 5 →
      add_to_schedule trucks oracle id step f avail sched = .ok s →
      ∀ y, totalCount s y = totalCount sched y + if y = id then f else 0 := by
  intro f
  induction f with
  | zero =>
    intro step avail sched s _ha _hl h y
    simp only [add_to_schedule] at h
    injection h with h
    rw [h]
    simp
  | succ f ih =>
    intro step avail sched s ha hl h y
    simp only [add_to_schedule] at h
    by_cases he : avail = []
    · rw [if_pos he] at h; cases h
    · rw [if_neg he] at h
      by_cases ht : trucks (randChoice (oracle step).1 avail) ≤ 0
      · rw [if_pos ht] at h; cases h
      · rw [if_neg ht] at h
        have hday : randChoice (oracle step).1 avail < 5 :=
          ha _ (randChoice_mem _ _ he)
        have hrec := ih _ _ _ _
          (fun d hd => ha d (List.mem_filter.1 hd).1)
          (by rw [schedAppend, List.length_set, hl]) h y
        have happ := totalCount_schedAppend sched (randChoice (oracle step).1 avail)
          ((oracle step).2 % (trucks (randChoice (oracle step).1 avail)).toNat) id y
          (by rw [hl]; exact hday)
        rw [hrec, happ]
        by_cases hy : y = id
        · simp [hy]
          omega
        · simp [hy]

theorem fold_count (trucks : Nat → Int) (oracle : Nat → Nat → Nat × Nat) :
    ∀ (l : List (Nat × Retailer)) (sched : Sched) (s : Sched), sched.length = 5 →
      l.foldlM (scheduleStep trucks oracle) sched = .ok s →
      ∀ y, totalCount s y = totalCount sched y + contrib (l.map Prod.snd) y := by
  intro l
  induction l with
  | nil =>
    intro sched s _hl h y
    simp only [List.foldlM, pure, Except.pure] at h
    injection h with h
    rw [h]
    simp [contrib]
  | cons p l ih =>
    intro sched s hl h y
    rw [List.foldlM_cons] at h
    cases h1 : scheduleStep trucks oracle sched p with
    | error e => rw [h1] at h; simp [bind, Except.bind] at h
    | ok s1 =>
      rw [h1] at h
      simp only [bind, Except.bind] at h
      simp only [scheduleStep] at h1
      have hlen1 : s1.length = 5 := by
        rw [add_to_schedule_length trucks (oracle p.1) p.2.id _ _ _ _ _ h1, hl]
      have hstep := add_to_schedule_count trucks (oracle p.1) p.2.id _ _ _ _ _
        (by decide) hl h1 y
      have hrest := ih s1 s hlen1 h y
      simp only [contrib, List.map_cons, List.sum_cons] at hrest ⊢
      rw [hrest, hstep]
      omega

theorem contrib_not_mem : ∀ (rs : List Retailer) (y : Int), y ∉ rs.map Retailer.id →
    contrib rs y = 0 := by
  intro rs
  induction rs with
  | nil => intro y _; rfl
  | cons r rs ih =>
    intro y h
    simp only [List.map_cons, List.mem_cons, not_or] at h
    simp only [contrib, List.map_cons, List.sum_cons] at ih ⊢
    rw [if_neg h.1, ih y h.2]

theorem contrib_nodup_mem : ∀ (rs : List Retailer) (r : Retailer),
    (rs.map Retailer.id).Nodup → r ∈ rs → contrib rs r.id = r.freq := by
  intro rs
  induction rs with
  | nil => intro r _ h; cases h
  | cons a rs ih =>
    intro r hnd hr
    simp only [List.map_cons, List.nodup_cons] at hnd
    rcases List.mem_cons.1 hr with h | h
    · subst h
      simp only [contrib, List.map_cons, List.sum_cons, if_pos rfl]
      have hz := contrib_not_mem rs r.id hnd.1
      simp only [contrib] at hz
      rw [hz]
      simp
    · have hne : r.id ≠ a.id := by
        intro he
        exact hnd.1 (he ▸ List.mem_map_of_mem Retailer.id h)
      simp only [contrib, List.map_cons, List.sum_cons, if_neg hne]
      have := ih r hnd.2 h
      simp only [contrib] at this
      rw [this]
      omega

/-- C3: for every weekly schedule the scheduler returns without error, and
every outlet of the input (with pairwise distinct outlet ids), the total
number of assignment-list entries carrying that outlet's id across all days
and trucks equals the outlet's required frequency exactly. -/
theorem schedule_counts_match_frequency (data : List Retailer) (trucks : Nat → Int)
    (oracle : Nat → Nat → Nat × Nat) (s : Sched) (r : Retailer)
    (hnd : (data.map Retailer.id).Nodup)
    (hok : create_weekly_schedule_with_dynamic_trucks data trucks oracle = .ok s)
    (hr : r ∈ data) :
    totalCount s r.id = r.freq := by
  have hperm := List.perm_insertionSort (fun a b => b.freq ≤ a.freq) data
  simp only [create_weekly_schedule_with_dynamic_trucks] at hok
  have hfold := fold_count trucks oracle (sorted_retailers data).enum emptySched s
    (by rfl) hok r.id
  rw [List.enum_map_snd] at hfold
  have hzero : totalCount emptySched r.id = 0 := by rfl
  have hnd' : ((sorted_retailers data).map Retailer.id).Nodup :=
    ((hperm.map Retailer.id).nodup_iff).2 hnd
  have hmem : r ∈ sorted_retailers data := hperm.mem_iff.2 hr
  rw [hfold, hzero, contrib_nodup_mem _ r hnd' hmem]
  omega

theorem schedule_counts_match_frequency_witness :
    totalCount [[(0, [1])], [], [(0, [1])], [], []] 1 = 2 :=
  schedule_counts_match_frequency [⟨1, 0, 0, 2⟩] (fun _ => 1) (fun _ step => (step, 0))
    [[(0, [1])], [], [(0, [1])], [], []] ⟨1, 0, 0, 2⟩ (by decide) (by decide) (by decide)

/-- C1: the spec demands `SchedulingInfeasible` whenever an outlet's visits no
longer fit (in particular for frequency 4), but the code never removes the
picked day itself from `available_days`, so the candidate set can never become
empty and the error is unreachable: the scheduler instead finishes, re-using
days.  The first conjunct shows no run at all returns the infeasibility
error; the second evaluates a frequency-4 outlet, which the spec says must
fail, to a successful schedule visiting day 0 four times. -/
theorem scheduler_infeasible_unreachable :
    (∀ (data : List Retailer) (trucks : Nat → Int) (oracle : Nat → Nat → Nat × Nat),
        create_weekly_schedule_with_dynamic_trucks data trucks oracle ≠
          .error .infeasible) ∧
      create_weekly_schedule_with_dynamic_trucks [⟨1, 0, 0, 4⟩] (fun _ => 1)
          (fun _ _ => (0, 0)) =
        .ok [[(0, [1, 1, 1, 1])], [], [], [], []] := by
  constructor
  · intro data trucks oracle
    exact fold_ne_infeasible trucks oracle _ _
  · decide

/-- C2: the code removes only `day - 1` and `day + 1` from the candidate set,
never the picked day itself, so an outlet can be assigned to the same day
twice: with frequency 2 and draws picking day 2 twice, the returned schedule
contains the outlet twice in day 2's truck 0 list, contradicting the claimed
removal of the picked day and the at-most-one-visit-per-day invariant. -/
theorem scheduler_reassigns_picked_day :
    create_weekly_schedule_with_dynamic_trucks [⟨7, 0, 0, 2⟩] (fun _ => 1)
        (fun _ step => (if step = 0 then 2 else 1, 0)) =
      .ok [[], [], [(0, [7, 7])], [], []] := by decide

/-- C9: if the scheduler picks, for an outlet with positive remaining
frequency, a day whose truck count is zero or negative, the truck draw
`random.randint(0, day_trucks[day] - 1)` fails with an error instead of
returning a schedule. -/
theorem zero_trucks_day_errors (trucks : Nat → Int) (oracle : Nat → Nat × Nat) (id : Int)
    (step f : Nat) (avail : List Nat) (sched : Sched) (hne : avail ≠ [])
    (hz : trucks (randChoice (oracle step).1 avail) ≤ 0) :
    add_to_schedule trucks oracle id step (f + 1) avail sched = .error .emptyRange := by
  simp only [add_to_schedule, if_neg hne, if_pos hz]

theorem zero_trucks_day_errors_witness :
    add_to_schedule (fun _ => 0) (fun _ => (0, 0)) 1 0 1 [0, 1, 2, 3, 4] emptySched =
      .error .emptyRange :=
  zero_trucks_day_errors (fun _ => 0) (fun _ => (0, 0)) 1 0 0 [0, 1, 2, 3, 4]
    emptySched (by decide) (by decide)

theorem inTM_cons (q : Nat × List Int) (rest : TruckMap) (y : Int) :
    inTM (q :: rest) y ↔ y ∈ q.2 ∨ inTM rest y := by
  unfold inTM
  constructor
  · rintro ⟨p, hp, hyp⟩
    rcases List.mem_cons.1 hp with h | h
    · exact Or.inl (h ▸ hyp)
    · exact Or.inr ⟨p, h, hyp⟩
  · rintro (hy | ⟨p, hp, hyp⟩)
    · exact ⟨q, List.mem_cons_self _ _, hy⟩
    · exact ⟨p, List.mem_cons_of_mem _ hp, hyp⟩

theorem inTM_appendTruck (m : TruckMap) (t : Nat) (id y : Int) :
    inTM (appendTruck m t id) y ↔ inTM m y ∨ y = id := by
  induction m with
  | nil =>
    rw [show appendTruck [] t id = [(t, [id])] from rfl, inTM_cons]
    simp only [inTM, List.not_mem_nil, false_and, exists_const, exists_false]
    simp
  | cons q rest ih =>
    obtain ⟨t', l⟩ := q
    rw [appendTruck]
    by_cases h : t' = t
    · rw [if_pos h, inTM_cons, inTM_cons]
      simp only [List.mem_append, List.mem_singleton]
      tauto
    · rw [if_neg h, inTM_cons, inTM_cons, ih]
      tauto

theorem getD_set_self : ∀ (s : Sched) (i : Nat) (a : TruckMap), i < s.length →
    (s.set i a).getD i [] = a := by
  intro s
  induction s with
  | nil => intro i a h; simp at h
  | cons x xs ih =>
    intro i a h
    cases i with
    | zero => rfl
    | succ i => simpa using ih i a (by simpa using h)

theorem getD_set_ne : ∀ (s : Sched) (i j : Nat) (a : TruckMap), i ≠ j →
    (s.set i a).getD j [] = s.getD j [] := by
  intro s
  induction s with
  | nil => intro i j a _; simp
  | cons x xs ih =>
    intro i j a h
    cases i with
    | zero =>
      cases j with
      | zero => exact absurd rfl h
      | succ j => rfl
    | succ i =>
      cases j with
      | zero => rfl
      | succ j => simpa using ih i j a (fun he => h (by rw [he]))

theorem onDay_schedAppend (s : Sched) (day truck : Nat) (id : Int) (hday : day < s.length)
    (d : Nat) (y : Int) :
    onDay (schedAppend s day truck id) d y ↔ onDay s d y ∨ (d = day ∧ y = id) := by
  by_cases h : d = day
  · subst h
    unfold onDay schedAppend
    rw [getD_set_self s d _ hday, inTM_appendTruck]
    tauto
  · unfold onDay schedAppend
    rw [getD_set_ne s day d _ (fun he => h he.symm)]
    tauto

theorem add_onDay_sub (trucks : Nat → Int) (oracle : Nat → Nat × Nat) (id : Int) :
    ∀ (f step : Nat) (avail : List Nat) (sched s : Sched),
      (∀ d ∈ avail, d < 5) → sched.length = 5 →
      add_to_schedule trucks oracle id step f avail sched = .ok s →
      ∀ d y, onDay s d y → onDay sched d y ∨ (y = id ∧ d ∈ avail) := by
  intro f
  induction f with
  | zero =>
    intro step avail sched s _ _ h d y hd
    simp only [add_to_schedule] at h
    injection h with h
    rw [h]
    exact Or.inl hd
  | succ f ih =>
    intro step avail sched s ha hl h d y hd
    simp only [add_to_schedule] at h
    by_cases he : avail = []
    · rw [if_pos he] at h; cases h
    · rw [if_neg he] at h
      by_cases ht : trucks (randChoice (oracle step).1 avail) ≤ 0
      · rw [if_pos ht] at h; cases h
      · rw [if_neg ht] at h
        have hday5 : randChoice (oracle step).1 avail < 5 := ha _ (randChoice_mem _ _ he)
        have hrec := ih _ _ _ _ (fun e hde => ha e (List.mem_filter.1 hde).1)
          (by rw [schedAppend, List.length_set, hl]) h d y hd
        rcases hrec with hmem | ⟨hy, hdm⟩
        · rw [onDay_schedAppend _ _ _ _ (by rw [hl]; exact hday5)] at hmem
          rcases hmem with hs | ⟨hdd, hyid⟩
          · exact Or.inl hs
          · exact Or.inr ⟨hyid, hdd ▸ randChoice_mem _ _ he⟩
        · exact Or.inr ⟨hy, (List.mem_filter.1 hdm).1⟩

theorem add_not_adjacent (trucks : Nat → Int) (oracle : Nat → Nat × Nat) (id : Int) :
    ∀ (f step : Nat) (avail : List Nat) (sched s : Sched),
      (∀ d ∈ avail, d < 5) → sched.length = 5 →
      add_to_schedule trucks oracle id step f avail sched = .ok s →
      ∀ d, ¬ onDay sched d id → ¬ onDay sched (d + 1) id →
        onDay s d id → onDay s (d + 1) id → False := by
  intro f
  induction f with
  | zero =>
    intro step avail sched s _ _ h d h1 _h2 h3 _h4
    simp only [add_to_schedule] at h
    injection h with h
    rw [h] at h1
    exact h1 h3
  | succ f ih =>
    intro step avail sched s ha hl h d h1 h2 h3 h4
    simp only [add_to_schedule] at h
    by_cases he : avail = []
    · rw [if_pos he] at h; cases h
    · rw [if_neg he] at h
      by_cases ht : trucks (randChoice (oracle step).1 avail) ≤ 0
      · rw [if_pos ht] at h; cases h
      · rw [if_neg ht] at h
        have hday5 : randChoice (oracle step).1 avail < 5 := ha _ (randChoice_mem _ _ he)
        have hlday : randChoice (oracle step).1 avail < sched.length := by
          rw [hl]; exact hday5
        have hfa : ∀ e, e ∈ (avail.filter fun d0 =>
            decide (d0 + 1 ≠ randChoice (oracle step).1 avail ∧
              d0 ≠ randChoice (oracle step).1 avail + 1)) →
            e + 1 ≠ randChoice (oracle step).1 avail ∧
              e ≠ randChoice (oracle step).1 avail + 1 := by
          intro e hne
          have := (List.mem_filter.1 hne).2
          simpa using this
        have hd' := add_onDay_sub trucks oracle id f (step + 1) _ _ s
          (fun e hde => ha e (List.mem_filter.1 hde).1)
          (by rw [schedAppend, List.length_set, hl]) h d id h3
        have hd1' := add_onDay_sub trucks oracle id f (step + 1) _ _ s
          (fun e hde => ha e (List.mem_filter.1 hde).1)
          (by rw [schedAppend, List.length_set, hl]) h (d + 1) id h4
        rw [onDay_schedAppend sched _ _ id hlday] at hd'
        rw [onDay_schedAppend sched _ _ id hlday] at hd1'
        rcases hd' with (hs | ⟨hdd, _⟩) | ⟨_, hdm⟩
        · exact h1 hs
        · rcases hd1' with (hs1 | ⟨hdd1, _⟩) | ⟨_, hdm1⟩
          · exact h2 hs1
          · omega
          · exact (hfa _ hdm1).2 (by omega)
        · have hcond := hfa _ hdm
          rcases hd1' with (hs1 | ⟨hdd1, _⟩) | ⟨_, hdm1⟩
          · exact h2 hs1
          · exact hcond.1 (by omega)
          · have hcond1 := hfa _ hdm1
            refine ih (step + 1) _ _ s (fun e hde => ha e (List.mem_filter.1 hde).1)
              (by rw [schedAppend, List.length_set, hl]) h d ?_ ?_ h3 h4
            · rw [onDay_schedAppend sched _ _ id hlday]
              rintro (hs | ⟨hdd, _⟩)
              · exact h1 hs
              · exact hcond1.2 (by omega)
            · rw [onDay_schedAppend sched _ _ id hlday]
              rintro (hs | ⟨hdd, _⟩)
              · exact h2 hs
              · exact hcond.1 (by omega)

theorem fold_onDay_sub (trucks : Nat → Int) (oracle : Nat → Nat → Nat × Nat) :
    ∀ (l : List (Nat × Retailer)) (sched s : Sched), sched.length = 5 →
      l.foldlM (scheduleStep trucks oracle) sched = .ok s →
      ∀ d y, onDay s d y → onDay sched d y ∨ ∃ p ∈ l, y = p.2.id := by
  intro l
  induction l with
  | nil =>
    intro sched s _ h d y hd
    simp only [List.foldlM, pure, Except.pure] at h
    injection h with h
    rw [h]
    exact Or.inl hd
  | cons p l ih =>
    intro sched s hl h d y hd
    rw [List.foldlM_cons] at h
    cases h1 : scheduleStep trucks oracle sched p with
    | error e => rw [h1] at h; simp [bind, Except.bind] at h
    | ok s1 =>
      rw [h1] at h
      simp only [bind, Except.bind] at h
      simp only [scheduleStep] at h1
      have hl1 : s1.length = 5 := by
        rw [add_to_schedule_length trucks (oracle p.1) p.2.id _ _ _ _ _ h1, hl]
      rcases ih s1 s hl1 h d y hd with hs1 | ⟨q, hq, hyq⟩
      · rcases add_onDay_sub trucks (oracle p.1) p.2.id _ _ _ _ _ (by decide) hl h1
          d y hs1 with hs | ⟨hy, _⟩
        · exact Or.inl hs
        · exact Or.inr ⟨p, List.mem_cons_self _ _, hy⟩
      · exact Or.inr ⟨q, List.mem_cons_of_mem _ hq, hyq⟩

theorem fold_not_adjacent (trucks : Nat → Int) (oracle : Nat → Nat → Nat × Nat) :
    ∀ (l : List (Nat × Retailer)) (sched s : Sched), sched.length = 5 →
      ((l.map fun p => p.2.id).Nodup) →
      (∀ p ∈ l, ∀ d, ¬ onDay sched d p.2.id) →
      l.foldlM (scheduleStep trucks oracle) sched = .ok s →
      ∀ y d, (∃ p ∈ l, y = p.2.id) → onDay s d y → onDay s (d + 1) y → False := by
  intro l
  induction l with
  | nil => intro sched s _ _ _ _ y d hy _ _; simp at hy
  | cons p l ih =>
    intro sched s hl hnd hfresh h y d hy h3 h4
    rw [List.foldlM_cons] at h
    cases h1 : scheduleStep trucks oracle sched p with
    | error e => rw [h1] at h; simp [bind, Except.bind] at h
    | ok s1 =>
      rw [h1] at h
      simp only [bind, Except.bind] at h
      simp only [scheduleStep] at h1
      have hl1 : s1.length = 5 := by
        rw [add_to_schedule_length trucks (oracle p.1) p.2.id _ _ _ _ _ h1, hl]
      simp only [List.map_cons, List.nodup_cons] at hnd
      rcases hy with ⟨q, hq, hyq⟩
      rcases List.mem_cons.1 hq with hq1 | hq2
      · subst hq1
        subst hyq
        have hd3 : onDay s1 d q.2.id := by
          rcases fold_onDay_sub trucks oracle l s1 s hl1 h d q.2.id h3 with hs | ⟨q', hq', hyq'⟩
          · exact hs
          · exact absurd (by rw [hyq']; exact List.mem_map_of_mem _ hq') hnd.1
        have hd4 : onDay s1 (d + 1) q.2.id := by
          rcases fold_onDay_sub trucks oracle l s1 s hl1 h (d + 1) q.2.id h4 with
            hs | ⟨q', hq', hyq'⟩
          · exact hs
          · exact absurd (by rw [hyq']; exact List.mem_map_of_mem _ hq') hnd.1
        exact add_not_adjacent trucks (oracle q.1) q.2.id _ _ _ _ _ (by decide) hl h1 d
          (hfresh q (List.mem_cons_self _ _) d)
          (hfresh q (List.mem_cons_self _ _) (d + 1)) hd3 hd4
      · refine ih s1 s hl1 hnd.2 ?_ h y d ⟨q, hq2, hyq⟩ h3 h4
        intro q' hq' d' hcon
        rcases add_onDay_sub trucks (oracle p.1) p.2.id _ _ _ _ _ (by decide) hl h1
          d' q'.2.id hcon with hs | ⟨hyid, _⟩
        · exact hfresh q' (List.mem_cons_of_mem _ hq') d' hs
        · exact hnd.1 (hyid ▸ List.mem_map_of_mem (fun p => p.2.id) hq')

theorem emptySched_getD (d : Nat) : emptySched.getD d [] = [] := by
  unfold emptySched
  rcases d with _ | _ | _ | _ | _ | d <;> rfl

theorem onDay_emptySched (d : Nat) (y : Int) : ¬ onDay emptySched d y := by
  unfold onDay
  rw [emptySched_getD]
  rintro ⟨p, hp, _⟩
  cases hp

/-- C4: in every weekly schedule the scheduler returns without error (for
input data with pairwise distinct outlet ids), no outlet identifier appears
in the assignments of both day `d` and day `d + 1` for any `d` in `0..3`. -/
theorem schedule_no_adjacent_days (data : List Retailer) (trucks : Nat → Int)
    (oracle : Nat → Nat → Nat × Nat) (s : Sched) (y : Int) (d : Nat)
    (hnd : (data.map Retailer.id).Nodup)
    (hok : create_weekly_schedule_with_dynamic_trucks data trucks oracle = .ok s)
    (_hd4 : d < 4) (hy : onDay s d y) : ¬ onDay s (d + 1) y := by
  intro hy1
  simp only [create_weekly_schedule_with_dynamic_trucks] at hok
  have hperm := List.perm_insertionSort (fun a b => b.freq ≤ a.freq) data
  have hnd2 : (((sorted_retailers data).enum).map fun p => p.2.id).Nodup := by
    have heq : (((sorted_retailers data).enum).map fun p => p.2.id) =
        (((sorted_retailers data).enum.map Prod.snd).map Retailer.id) := by
      rw [List.map_map]
      rfl
    rw [heq, List.enum_map_snd]
    exact ((hperm.map Retailer.id).nodup_iff).2 hnd
  rcases fold_onDay_sub trucks oracle _ emptySched s (by rfl) hok d y hy with
    hempty | hmeml
  · exact onDay_emptySched _ _ hempty
  · exact fold_not_adjacent trucks oracle _ emptySched s (by rfl) hnd2
      (fun p _ d0 => onDay_emptySched d0 p.2.id) hok y d hmeml hy hy1

theorem schedule_no_adjacent_days_witness :
    ¬ onDay [[(0, [1])], [], [(0, [1])], [], []] 1 1 :=
  schedule_no_adjacent_days [⟨1, 0, 0, 2⟩] (fun _ => 1) (fun _ step => (step, 0))
    [[(0, [1])], [], [(0, [1])], [], []] 1 0 (by decide) (by decide) (by decide) (by decide)

/-- C7: the distance function is the haversine great-circle distance with
Earth radius 6371 km, and it satisfies both `haversine(A, A) = 0` for every
coordinate pair `A` and `haversine(A, B) = haversine(B, A)` for every pair
of coordinate pairs. -/
theorem haversine_zero_and_symm :
    (∀ A : ℝ × ℝ, haversine_distance A A = 0) ∧
      (∀ A B : ℝ × ℝ, haversine_distance A B = haversine_distance B A) := by
  constructor
  · intro A
    simp only [haversine_distance]
    rw [sub_self, sub_self]
    norm_num [radians, atan2, Real.arctan_zero, Real.sqrt_one, Real.sqrt_zero]
  · intro A B
    simp only [haversine_distance]
    have e1 : radians (B.1 - A.1) / 2 = -(radians (A.1 - B.1) / 2) := by
      unfold radians; ring
    have e2 : radians (B.2 - A.2) / 2 = -(radians (A.2 - B.2) / 2) := by
      unfold radians; ring
    rw [e1, e2, Real.sin_neg, Real.sin_neg, neg_sq, neg_sq,
      mul_comm (Real.cos (radians A.1)) (Real.cos (radians B.1))]

theorem minBy_mem {α : Type} [LinearOrder α] (f : Nat → α) :
    ∀ (xs : List Nat) (m : Nat), minBy f m xs ∈ m :: xs := by
  intro xs
  induction xs with
  | nil => intro m; simp [minBy]
  | cons x xs ih =>
    intro m
    simp only [minBy]
    by_cases h : f x < f m
    · rw [if_pos h]
      have := ih x
      simp only [List.mem_cons] at this ⊢
      tauto
    · rw [if_neg h]
      have := ih m
      simp only [List.mem_cons] at this ⊢
      tauto

theorem minBy_le {α : Type} [LinearOrder α] (f : Nat → α) :
    ∀ (xs : List Nat) (m j : Nat), j ∈ m :: xs → f (minBy f m xs) ≤ f j := by
  intro xs
  induction xs with
  | nil =>
    intro m j hj
    simp only [minBy]
    rcases List.mem_cons.1 hj with h | h
    · rw [h]
    · cases h
  | cons x xs ih =>
    intro m j hj
    simp only [minBy]
    by_cases h : f x < f m
    · rw [if_pos h]
      rcases List.mem_cons.1 hj with h1 | h1
      · subst h1
        exact le_trans (ih x x (List.mem_cons_self _ _)) h.le
      · exact ih x j h1
    · rw [if_neg h]
      rcases List.mem_cons.1 hj with h1 | h1
      · subst h1
        exact ih j j (List.mem_cons_self _ _)
      · rcases List.mem_cons.1 h1 with h2 | h2
        · subst h2
          exact le_trans (ih m m (List.mem_cons_self _ _)) (not_lt.1 h)
        · exact ih m j (List.mem_cons_of_mem _ h2)

theorem minBy_congr {α β : Type} [LinearOrder α] [LinearOrder β] (f : Nat → α)
    (g : Nat → β) (h : ∀ a b, f a < f b ↔ g a < g b) :
    ∀ (xs : List Nat) (m : Nat), minBy f m xs = minBy g m xs := by
  intro xs
  induction xs with
  | nil => intro m; rfl
  | cons x xs ih =>
    intro m
    simp only [minBy]
    by_cases hc : f x < f m
    · rw [if_pos hc, if_pos ((h x m).1 hc), ih]
    · rw [if_neg hc, if_neg (fun hg => hc ((h x m).2 hg)), ih]

theorem nnGo_congr {α β : Type} [LinearOrder α] [LinearOrder β] (d1 : Nat → Nat → α)
    (d2 : Nat → Nat → β) (h : ∀ i a b, d1 i a < d1 i b ↔ d2 i a < d2 i b) :
    ∀ (n cur : Nat) (l : List Nat), nnGo d1 n cur l = nnGo d2 n cur l := by
  intro n
  induction n with
  | zero => intro cur l; rfl
  | succ n ih =>
    intro cur l
    cases l with
    | nil => rfl
    | cons x xs =>
      simp only [nnGo]
      rw [minBy_congr (d1 cur) (d2 cur) (h cur), ih]

theorem nnGo_perm {α : Type} [LinearOrder α] (d : Nat → Nat → α) :
    ∀ (n : Nat) (l : List Nat) (cur : Nat), l.length ≤ n → (nnGo d n cur l).Perm l := by
  intro n
  induction n with
  | zero =>
    intro l cur h
    have hl : l = [] := List.length_eq_zero.1 (Nat.le_zero.1 h)
    subst hl
    exact List.Perm.refl _
  | succ n ih =>
    intro l cur h
    cases l with
    | nil => exact List.Perm.refl _
    | cons x xs =>
      simp only [nnGo]
      have hmem : minBy (d cur) x xs ∈ x :: xs := minBy_mem (d cur) xs x
      have hlen : ((x :: xs).erase (minBy (d cur) x xs)).length ≤ n := by
        rw [List.length_erase_of_mem hmem]
        simpa using h
      exact ((ih _ _ hlen).cons _).trans (List.perm_cons_erase hmem).symm

theorem sqDist_nonneg (p q : ℚ × ℚ) : 0 ≤ sqDist p q := by
  unfold sqDist
  positivity

theorem euclidean_lt_iff (p q r s : ℚ × ℚ) :
    euclidean p q < euclidean r s ↔ sqDist p q < sqDist r s := by
  unfold euclidean
  rw [Real.sqrt_lt_sqrt_iff (by exact_mod_cast sqDist_nonneg p q)]
  exact Rat.cast_lt

theorem optimize_route_for_truck_eq (tbl : Int → Option (ℚ × ℚ)) (retailers : List Int) :
    optimize_route_for_truck tbl retailers = optimize_route_for_truck_sq tbl retailers := by
  unfold optimize_route_for_truck optimize_route_for_truck_sq
  dsimp only
  cases ((-1 : Int) :: (retailers ++ [-1])).mapM tbl with
  | none => rfl
  | some rc =>
    simp only [Option.map_some']
    congr 1
    unfold nnAux
    rw [nnGo_congr (fun i j => euclidean (rc.getD i (0, 0)) (rc.getD j (0, 0)))
      (fun i j => sqDist (rc.getD i (0, 0)) (rc.getD j (0, 0)))
      (fun i a b => euclidean_lt_iff _ _ _ _)]

theorem optimize_routes_for_a_day_eq (data : List Retailer) (depot : ℚ × ℚ) :
    ∀ sched : List (Nat × List Int),
      optimize_routes_for_a_day data depot sched =
        optimize_routes_for_a_day_sq data depot sched := by
  intro sched
  induction sched with
  | nil => rfl
  | cons p rest ih =>
    obtain ⟨truck, retailers⟩ := p
    by_cases h : retailers = []
    · simp only [optimize_routes_for_a_day, optimize_routes_for_a_day_sq, if_pos h]
      exact ih
    · simp only [optimize_routes_for_a_day, optimize_routes_for_a_day_sq, if_neg h]
      rw [optimize_route_for_truck_eq, ih]

theorem map_range_getD : ∀ (l : List Int),
    (List.range l.length).map (fun i => l.getD i 0) = l := by
  intro l
  induction l with
  | nil => rfl
  | cons a l ih =>
    rw [List.length_cons, List.range_succ_eq_map, List.map_cons, List.map_map]
    have hcomp : ((fun i => (a :: l).getD i 0) ∘ Nat.succ) = fun i => l.getD i 0 := by
      funext i; rfl
    rw [hcomp, ih]
    rfl

theorem interior_map (retailers : List Int) :
    (List.range' 1 retailers.length).map
      (fun i => ((-1 : Int) :: (retailers ++ [-1])).getD i 0) = retailers := by
  rw [List.range'_eq_map_range, List.map_map]
  have hcomp : ((fun i => ((-1 : Int) :: (retailers ++ [-1])).getD i 0) ∘ fun x => 1 + x) =
      fun i => (retailers ++ [-1]).getD i 0 := by
    funext i
    show ((-1 : Int) :: (retailers ++ [-1])).getD (1 + i) 0 = _
    rw [Nat.add_comm 1 i]
    exact List.getD_cons_succ
  rw [hcomp]
  have hcongr : ∀ i ∈ List.range retailers.length,
      (retailers ++ [-1]).getD i 0 = retailers.getD i 0 := by
    intro i hi
    exact List.getD_append _ _ _ _ (List.mem_range.1 hi)
  rw [List.map_congr_left hcongr, map_range_getD]

theorem optimize_route_shape (tbl : Int → Option (ℚ × ℚ)) (retailers : List Int)
    (route : List Int) (h : optimize_route_for_truck tbl retailers = some route) :
    ∃ mid, route = (-1) :: (mid ++ [-1]) ∧ mid.Perm retailers := by
  unfold optimize_route_for_truck at h
  dsimp only at h
  cases hm : ((-1 : Int) :: (retailers ++ [-1])).mapM tbl with
  | none => rw [hm] at h; cases h
  | some rc =>
    rw [hm] at h
    simp only [Option.map_some'] at h
    injection h with h
    refine ⟨(nnAux (fun i j => euclidean (rc.getD i (0, 0)) (rc.getD j (0, 0))) 0
      (List.range' 1 retailers.length)).map
        (fun i => ((-1 : Int) :: (retailers ++ [-1])).getD i 0), h.symm, ?_⟩
    have hperm : (nnAux (fun i j => euclidean (rc.getD i (0, 0)) (rc.getD j (0, 0))) 0
        (List.range' 1 retailers.length)).Perm (List.range' 1 retailers.length) := by
      unfold nnAux
      exact nnGo_perm _ _ _ _ le_rfl
    have := hperm.map fun i => ((-1 : Int) :: (retailers ++ [-1])).getD i 0
    rw [interior_map] at this
    exact this

theorem optDay_keys_sublist (data : List Retailer) (depot : ℚ × ℚ) :
    ∀ (sched routes : List (Nat × List Int)),
      optimize_routes_for_a_day data depot sched = some routes →
      (routes.map Prod.fst).Sublist (sched.map Prod.fst) := by
  intro sched
  induction sched with
  | nil =>
    intro routes h
    injection h with h
    rw [← h]
  | cons p rest ih =>
    intro routes h
    obtain ⟨truck, retailers⟩ := p
    by_cases he : retailers = []
    · simp only [optimize_routes_for_a_day, if_pos he] at h
      exact (ih routes h).cons _
    · simp only [optimize_routes_for_a_day, if_neg he] at h
      cases hr : optimize_route_for_truck (coordTable data depot) retailers with
      | none => rw [hr] at h; simp [bind, Option.bind] at h
      | some route =>
        rw [hr] at h
        cases ho : optimize_routes_for_a_day data depot rest with
        | none => rw [ho] at h; simp [bind, Option.bind] at h
        | some out =>
          rw [ho] at h
          simp only [bind, Option.bind, pure, Option.pure_def] at h
          injection h with h
          rw [← h]
          exact (ih out ho).cons₂ _

/-- C5: for every truck entry of a day's schedule (with distinct truck keys,
as in a Python dict): an empty assignment list yields no route for that
truck, and a non-empty one yields a route whose first and last stops are the
depot sentinel `-1` and whose interior is a permutation of the truck's
assignment list — in particular, for duplicate-free assignment lists, each
assigned outlet appears exactly once and the interior is set-equal to the
assignment list. -/
theorem day_routes_structure (data : List Retailer) (depot : ℚ × ℚ) :
    ∀ (day_schedule routes : List (Nat × List Int)) (truck : Nat) (retailers : List Int),
      optimize_routes_for_a_day data depot day_schedule = some routes →
      (day_schedule.map Prod.fst).Nodup →
      (truck, retailers) ∈ day_schedule →
      (retailers = [] → ∀ route, (truck, route) ∉ routes) ∧
        (retailers ≠ [] → ∃ mid, (truck, (-1 : Int) :: (mid ++ [-1])) ∈ routes ∧
          mid.Perm retailers ∧
          (retailers.Nodup → mid.Nodup ∧ ∀ x, x ∈ mid ↔ x ∈ retailers)) := by
  intro day_schedule
  induction day_schedule with
  | nil => intro routes truck retailers _ _ hmem; cases hmem
  | cons p rest ih =>
    intro routes truck retailers hok hkeys hmem
    obtain ⟨t0, rs0⟩ := p
    simp only [List.map_cons, List.nodup_cons] at hkeys
    rcases List.mem_cons.1 hmem with hhead | htail
    · rw [Prod.mk.injEq] at hhead
      obtain ⟨h1, h2⟩ := hhead
      subst h1
      subst h2
      by_cases he : retailers = []
      · simp only [optimize_routes_for_a_day, if_pos he] at hok
        constructor
        · intro _ route hcon
          have hmap : truck ∈ routes.map Prod.fst := List.mem_map_of_mem Prod.fst hcon
          have hsub := optDay_keys_sublist data depot rest routes hok
          exact hkeys.1 (hsub.subset hmap)
        · intro hne; exact absurd he hne
      · simp only [optimize_routes_for_a_day, if_neg he] at hok
        cases hr : optimize_route_for_truck (coordTable data depot) retailers with
        | none => rw [hr] at hok; simp [bind, Option.bind] at hok
        | some route =>
          rw [hr] at hok
          cases ho : optimize_routes_for_a_day data depot rest with
          | none => rw [ho] at hok; simp [bind, Option.bind] at hok
          | some out =>
            rw [ho] at hok
            simp only [bind, Option.bind, pure, Option.pure_def] at hok
            injection hok with hok
            constructor
            · intro habs; exact absurd habs he
            · intro _
              obtain ⟨mid, hmid, hperm⟩ := optimize_route_shape _ _ _ hr
              refine ⟨mid, ?_, hperm, ?_⟩
              · rw [← hok, ← hmid]
                exact List.mem_cons_self _ _
              · intro hnd
                exact ⟨hperm.nodup_iff.2 hnd, fun x => hperm.mem_iff⟩
    · have htne : truck ≠ t0 := by
        intro he
        exact hkeys.1 (he ▸ List.mem_map_of_mem Prod.fst htail)
      by_cases he : rs0 = []
      · simp only [optimize_routes_for_a_day, if_pos he] at hok
        exact ih routes truck retailers hok hkeys.2 htail
      · simp only [optimize_routes_for_a_day, if_neg he] at hok
        cases hr : optimize_route_for_truck (coordTable data depot) rs0 with
        | none => rw [hr] at hok; simp [bind, Option.bind] at hok
        | some route0 =>
          rw [hr] at hok
          cases ho : optimize_routes_for_a_day data depot rest with
          | none => rw [ho] at hok; simp [bind, Option.bind] at hok
          | some out =>
            rw [ho] at hok
            simp only [bind, Option.bind, pure, Option.pure_def] at hok
            injection hok with hok
            have ihres := ih out truck retailers ho hkeys.2 htail
            constructor
            · intro hrs route hcon
              rw [← hok] at hcon
              rcases List.mem_cons.1 hcon with hc | hc
              · rw [Prod.mk.injEq] at hc
                exact htne hc.1
              · exact ihres.1 hrs route hc
            · intro hrs
              obtain ⟨mid, hmid, hperm, hnd⟩ := ihres.2 hrs
              refine ⟨mid, ?_, hperm, hnd⟩
              rw [← hok]
              exact List.mem_cons_of_mem _ hmid

theorem day_routes_structure_witness :
    ∃ mid : List Int,
      ((0 : Nat), (-1 : Int) :: (mid ++ [-1])) ∈
          [((0 : Nat), ([-1, 1, 2, -1] : List Int))] ∧
        mid.Perm [1, 2] ∧
        (([1, 2] : List Int).Nodup → mid.Nodup ∧
          ∀ x, x ∈ mid ↔ x ∈ ([1, 2] : List Int)) :=
  (day_routes_structure [⟨1, 1, 0, 1⟩, ⟨2, 2, 0, 1⟩] (0, 0)
      [(0, [1, 2]), (3, [])] [(0, [-1, 1, 2, -1])] 0 [1, 2]
      (by
        rw [optimize_routes_for_a_day_eq]
        have hroute : optimize_route_for_truck_sq
            (coordTable [⟨1, 1, 0, 1⟩, ⟨2, 2, 0, 1⟩] (0, 0)) [1, 2] =
            some [-1, 1, 2, -1] := by
          unfold optimize_route_for_truck_sq
          dsimp only
          have hmap : ((-1 : Int) :: ([1, 2] ++ [-1])).mapM
              (coordTable [⟨1, 1, 0, 1⟩, ⟨2, 2, 0, 1⟩] (0, 0)) =
              some [(0, 0), (1, 0), (2, 0), (0, 0)] := rfl
          rw [hmap]
          simp only [Option.map_some']
          norm_num [nnAux, nnGo, minBy, sqDist, List.getD, List.range']
        simp only [optimize_routes_for_a_day_sq, hroute]
        norm_num [bind, Option.bind]
        simp) (by decide)
      (by decide)).2 (by decide)

/-- C6: the sequencer is greedy nearest-neighbour under the Euclidean metric
on raw coordinates: at each step the emitted index is the minimum-distance
unvisited index as seen from the current position (first conjunct:
`minBy` realises Python's `min(unvisited, key=...)` and the loop emits it and
recurses from it); and concretely, a truck assigned outlets with ids 3, 1, 2
lying on a line at distances 3, 1, 2 from the depot is routed as
`[-1, 1, 2, 3, -1]`, i.e. depot, nearest, middle, farthest, depot. -/
theorem nearest_neighbor_route :
    (∀ (α : Type) [LinearOrder α] (d : Nat → Nat → α) (n cur x : Nat) (xs : List Nat),
        minBy (d cur) x xs ∈ x :: xs ∧
          (∀ j ∈ x :: xs, d cur (minBy (d cur) x xs) ≤ d cur j) ∧
          nnGo d (n + 1) cur (x :: xs) =
            minBy (d cur) x xs ::
              nnGo d n (minBy (d cur) x xs) ((x :: xs).erase (minBy (d cur) x xs))) ∧
      optimize_route_for_truck
          (coordTable [⟨1, 1, 0, 1⟩, ⟨2, 2, 0, 1⟩, ⟨3, 3, 0, 1⟩] (0, 0)) [3, 1, 2] =
        some [-1, 1, 2, 3, -1] := by
  constructor
  · intro α _ d n cur x xs
    exact ⟨minBy_mem _ _ _, fun j hj => minBy_le _ _ _ _ hj, rfl⟩
  · rw [optimize_route_for_truck_eq]
    unfold optimize_route_for_truck_sq
    dsimp only
    have hmap : ((-1 : Int) :: ([3, 1, 2] ++ [-1])).mapM
        (coordTable [⟨1, 1, 0, 1⟩, ⟨2, 2, 0, 1⟩, ⟨3, 3, 0, 1⟩] (0, 0)) =
        some [(0, 0), (3, 0), (1, 0), (2, 0), (0, 0)] := rfl
    rw [hmap]
    simp only [Option.map_some']
    norm_num [nnAux, nnGo, minBy, sqDist, List.getD, List.range']

theorem nearest_neighbor_route_witness :
    minBy (fun j => (j : ℚ)) 1 [2] ∈ ([1, 2] : List Nat) :=
  (nearest_neighbor_route.1 ℚ (fun _ j => (j : ℚ)) 0 0 1 [2]).1

theorem flatMap_congr {α β : Type} : ∀ (l : List α) (f g : α → List β),
    (∀ a ∈ l, f a = g a) → l.flatMap f = l.flatMap g := by
  intro l
  induction l with
  | nil => intro f g _; rfl
  | cons a l ih =>
    intro f g h
    rw [List.flatMap_cons, List.flatMap_cons, h a (List.mem_cons_self _ _),
      ih f g fun x hx => h x (List.mem_cons_of_mem _ hx)]

theorem enumFrom_eq_range_map {α : Type} (d : α) : ∀ (l : List α) (k : Nat),
    List.enumFrom k l = (List.range l.length).map fun i => (k + i, l.getD i d) := by
  intro l
  induction l with
  | nil => intro k; rfl
  | cons a l ih =>
    intro k
    show (k, a) :: List.enumFrom (k + 1) l = _
    rw [List.length_cons, List.range_succ_eq_map, List.map_cons, ih (k + 1), List.map_map]
    congr 1
    apply List.map_congr_left
    intro i _
    show (k + 1 + i, l.getD i d) = (k + Nat.succ i, (a :: l).getD (Nat.succ i) d)
    have hk : k + 1 + i = k + Nat.succ i := by omega
    rw [hk, List.getD_cons_succ]

theorem enum_eq_range_map {α : Type} (d : α) (l : List α) :
    l.enum = (List.range l.length).map fun i => (i, l.getD i d) := by
  have h := enumFrom_eq_range_map d l 0
  rw [show l.enum = List.enumFrom 0 l from rfl, h]
  apply List.map_congr_left
  intro i _
  rw [Nat.zero_add]

/-- Restating the export as position-indexed rows: `routes_to_dataframe`
numbers each row by its day key plus one, the 0-based position of the route
inside the day's route list plus one, and the 0-based step plus one. -/
theorem export_rows_spec_eq : ∀ T, routes_to_dataframe T = exportRowsSpec T := by
  intro T
  unfold routes_to_dataframe exportRowsSpec
  apply flatMap_congr
  intro p _
  rw [enum_eq_range_map ([] : List (ℚ × ℚ)), List.flatMap_map]
  apply flatMap_congr
  intro i _
  rw [enum_eq_range_map ((0, 0) : ℚ × ℚ), List.map_map]
  rfl

theorem transform_day_keys (data : List Retailer) :
    ∀ (plan : List (Nat × List (Nat × List Int))) (T : List (Nat × List (List (ℚ × ℚ)))),
      transform_routes_to_coordinates plan data = some T →
      T.map Prod.fst = plan.map Prod.fst := by
  intro plan
  induction plan with
  | nil =>
    intro T h
    injection h with h
    rw [← h]
    rfl
  | cons p rest ih =>
    intro T h
    unfold transform_routes_to_coordinates at h
    rw [List.mapM_cons] at h
    cases hf : ((p.2.mapM fun tr : Nat × List Int =>
        tr.2.mapM (resolveCoord data)).map fun rs => (p.1, rs)) with
    | none => rw [hf] at h; simp [bind, Option.bind] at h
    | some q =>
      rw [hf] at h
      cases hrest : rest.mapM (fun p =>
          ((p.2.mapM fun tr : Nat × List Int =>
            tr.2.mapM (resolveCoord data)).map fun rs => (p.1, rs))) with
      | none => rw [hrest] at h; simp [bind, Option.bind] at h
      | some Ts =>
        rw [hrest] at h
        simp only [bind, Option.bind, pure, Option.pure_def] at h
        injection h with h
        obtain ⟨rs, _, hq⟩ := Option.map_eq_some'.1 hf
        rw [← h, List.map_cons, ← hq, List.map_cons]
        rw [ih Ts hrest]

/-- C8 counterexample: a Weekly Route Plan whose only day (day key 0) holds a
single route under internal truck index 1 (truck 0 produced no route).  The
exported table gives that route Truck ID 1 — the route's position in the
transformed day-list plus one — not the internal truck index 1 plus one = 2,
so the exported truck index does not equal the internal 0-based truck index
of the Weekly Route Plan plus 1. -/
theorem export_truck_index_counterexample :
    transform_routes_to_coordinates [(0, [(1, [5])])] [⟨5, 1, 2, 0⟩] =
        some [(0, [[(1, 2)]])] ∧
      (routes_to_dataframe [(0, [[(1, 2)]])]).map Row.truckID = [1] ∧
      ¬(routes_to_dataframe [(0, [[(1, 2)]])]).map Row.truckID = [1 + 1] := by
  refine ⟨by decide, by decide, by decide⟩

/-- C8 amended: in the exported flat table every day index equals the
internal 0-based day key plus 1 (day keys are preserved by the coordinate
transformation), and every truck index equals the 0-based position of the
route within its day's transformed route list plus 1 (likewise each step
index is its 0-based position plus 1) — which coincides with the Weekly
Route Plan's internal truck index plus 1 only when the dictionary holds the
trucks densely in ascending order. -/
theorem export_indices_positional (plan : List (Nat × List (Nat × List Int)))
    (data : List Retailer) (T : List (Nat × List (List (ℚ × ℚ))))
    (h : transform_routes_to_coordinates plan data = some T) :
    T.map Prod.fst = plan.map Prod.fst ∧ routes_to_dataframe T = exportRowsSpec T :=
  ⟨transform_day_keys data plan T h, export_rows_spec_eq T⟩

theorem export_indices_positional_witness :
    ([((0 : Nat), [[((1 : ℚ), (2 : ℚ))]])].map Prod.fst =
        ([((0 : Nat), [((1 : Nat), [(5 : Int)])])].map Prod.fst)) ∧
      routes_to_dataframe [(0, [[(1, 2)]])] = exportRowsSpec [(0, [[(1, 2)]])] :=
  export_indices_positional [(0, [(1, [5])])] [⟨5, 1, 2, 0⟩] [(0, [[(1, 2)]])] (by decide)

theorem find_eq_of_nodup : ∀ (data : List Retailer) (r : Retailer),
    (data.map Retailer.id).Nodup → r ∈ data →
    (data.find? fun x => x.id = r.id) = some r := by
  intro data
  induction data with
  | nil => intro r _ h; cases h
  | cons a rest ih =>
    intro r hnd hr
    simp only [List.map_cons, List.nodup_cons] at hnd
    by_cases ha : a.id = r.id
    · rw [List.find?_cons_of_pos _ (by simpa using ha)]
      have har : a = r := by
        rcases List.mem_cons.1 hr with h | h
        · exact h.symm
        · exact absurd (ha ▸ List.mem_map_of_mem Retailer.id h) hnd.1
      rw [har]
    · rw [List.find?_cons_of_neg _ (by simpa using ha)]
      rcases List.mem_cons.1 hr with h | h
      · exact absurd (by rw [h]) ha
      · exact ih r hnd.2 h

/-- C10: the depot sentinel is the concrete identifier `-1`.  In the
sequencer's coordinate table (outlet table plus a depot row keyed `-1`) and
in the projector's guarded dictionary lookup, under the precondition that no
outlet identifier equals `-1` (and identifiers are distinct), the sentinel
resolves to the depot coordinate and every outlet identifier resolves to
that outlet's own coordinates; whereas for a data set containing an outlet
whose identifier is `-1`, both lookups silently substitute the depot's
coordinates for that outlet's. -/
theorem depot_sentinel_resolution (data : List Retailer) (depot : ℚ × ℚ)
    (hminus : ∀ r ∈ data, r.id ≠ -1) (hnd : (data.map Retailer.id).Nodup) :
    (coordTable data depot (-1) = some depot ∧
        resolveCoord data (-1) = some DEPOT_COORDINATES) ∧
      (∀ r ∈ data, coordTable data depot r.id = some (r.lat, r.lon) ∧
        resolveCoord data r.id = some (r.lat, r.lon)) ∧
      (coordTable [⟨-1, 5, 6, 0⟩] depot (-1) = some depot ∧
        resolveCoord [⟨-1, 5, 6, 0⟩] (-1) = some DEPOT_COORDINATES) := by
  refine ⟨⟨by simp [coordTable], by simp [resolveCoord]⟩, ?_,
    ⟨by simp [coordTable], by simp [resolveCoord]⟩⟩
  intro r hr
  have hfind := find_eq_of_nodup data r hnd hr
  constructor
  · unfold coordTable
    rw [if_neg (hminus r hr), hfind]
    rfl
  · unfold resolveCoord
    rw [if_pos (hminus r hr), hfind]
    rfl

theorem depot_sentinel_resolution_witness :
    (coordTable [⟨3, 1, 2, 7⟩] (0, 0) (-1) = some (0, 0) ∧
        resolveCoord [⟨3, 1, 2, 7⟩] (-1) = some DEPOT_COORDINATES) ∧
      (∀ r ∈ [(⟨3, 1, 2, 7⟩ : Retailer)],
        coordTable [⟨3, 1, 2, 7⟩] (0, 0) r.id = some (r.lat, r.lon) ∧
          resolveCoord [⟨3, 1, 2, 7⟩] r.id = some (r.lat, r.lon)) ∧
      (coordTable [⟨-1, 5, 6, 0⟩] (0, 0) (-1) = some (0, 0) ∧
        resolveCoord [⟨-1, 5, 6, 0⟩] (-1) = some DEPOT_COORDINATES) :=
  depot_sentinel_resolution [⟨3, 1, 2, 7⟩] (0, 0) (by decide) (by decide)
